import Mathlib

/-!
Shallow embedding of the two numeric kernels of the TorchLeet notebooks:

* `scaled_dot_product_attention` from
  `llm/Implement-Attention-from-Scratch/attention-q4.ipynb`;
* `SinusoidalPositionalEmbedding` from
  `llm/Sinusoidal-Positional-Embedding/sinusoidal-q7.ipynb`.

Tensors are modelled two ways, both translated from the same source code:

* a typed model (`Tens`): a batched 3-D tensor of shape `(B, m, n)` is a
  function `Fin B → Fin m → Fin n → ℝ`; used for value-level claims
  (softmax formula, masking, row-stochasticity);
* an untyped list model (`Ten`): nested lists carrying their shapes as
  lengths; used for shape- and error-behaviour claims, where the checks the
  underlying tensor library performs are made explicit as `Except` failures.

The IEEE value `-inf` produced by `masked_fill(mask == 0, float(-inf))` is
modelled as `Option ℝ` with `none` standing for `-inf`; `exp(-inf) = 0`
exactly in IEEE arithmetic, which `expOpt` reflects.
-/

/-- A batched 3-D real tensor of shape `(B, m, n)`. -/
abbrev Tens (B m n : ℕ) : Type := Fin B → Fin m → Fin n → ℝ

/-- A batched 3-D boolean mask of shape `(B, m, n)`; `false` models a mask
entry equal to `0`. -/
abbrev BMask (B m n : ℕ) : Type := Fin B → Fin m → Fin n → Bool

/-- Exponential extended to the reals together with negative infinity
(`none` stands for `-∞`): IEEE `exp(-inf) = 0`. -/
noncomputable def expOpt : Option ℝ → ℝ
  | none => 0
  | some x => Real.exp x

/-- Source line
`scores = torch.matmul(q, k.transpose(-2, -1)) / torch.sqrt(torch.tensor(d_k))`:
entry `(b, i, j)` of the scaled scores. -/
noncomputable def scores3 {B Sq Sk Dk : ℕ} (q : Tens B Sq Dk) (k : Tens B Sk Dk) :
    Fin B → Fin Sq → Fin Sk → ℝ :=
  fun b i j => (∑ t, q b i t * k b j t) / Real.sqrt Dk

/-- Source lines
`if mask is not None: scores = scores.masked_fill(mask == 0, float(-inf))`:
the scores entering softmax, with `none` standing for `-inf`. When no mask is
given the scores pass through unchanged. -/
noncomputable def maskedScores {B Sq Sk Dk : ℕ} (q : Tens B Sq Dk) (k : Tens B Sk Dk)
    (mask : Option (BMask B Sq Sk)) : Fin B → Fin Sq → Fin Sk → Option ℝ :=
  match mask with
  | none => fun b i j => some (scores3 q k b i j)
  | some m => fun b i j => if m b i j = false then none else some (scores3 q k b i j)

/-- Source line `attention_weights = F.softmax(scores, dim=-1)`: softmax of one
row of (possibly `-inf`-filled) scores. -/
noncomputable def softmaxO {n : ℕ} (r : Fin n → Option ℝ) (j : Fin n) : ℝ :=
  expOpt (r j) / ∑ j', expOpt (r j')

/-- The function `scaled_dot_product_attention(q, k, v, mask)` of the attention notebook,
restricted to 3-D tensors with a common batch dimension. Returns
`(output, attention_weights)`. -/
noncomputable def scaled_dot_product_attention {B Sq Sk Dk Dv : ℕ}
    (q : Tens B Sq Dk) (k : Tens B Sk Dk) (v : Tens B Sk Dv)
    (mask : Option (BMask B Sq Sk)) :
    Tens B Sq Dv × Tens B Sq Sk :=
  let w : Tens B Sq Sk := fun b i => softmaxO (maskedScores q k mask b i)
  (fun b i t => ∑ j, w b i j * v b j t, w)

/-- Spec-side formula (written from the words of the spec, for comparison with the code):
softmax along the key axis of `q · kᵀ / sqrt d_k`. -/
noncomputable def specWeights {B Sq Sk Dk : ℕ} (q : Tens B Sq Dk) (k : Tens B Sk Dk) :
    Tens B Sq Sk :=
  fun b i j =>
    Real.exp ((∑ t, q b i t * k b j t) / Real.sqrt Dk) /
      ∑ j', Real.exp ((∑ t, q b i t * k b j' t) / Real.sqrt Dk)

/-- Spec-side formula: `output` is the batched matrix product of the weights
with `v`. -/
noncomputable def specOutput {B Sq Sk Dk Dv : ℕ} (q : Tens B Sq Dk) (k : Tens B Sk Dk)
    (v : Tens B Sk Dv) : Tens B Sq Dv :=
  fun b i t => ∑ j, specWeights q k b i j * v b j t

/-- Whether position `(b, i, j)` is attended (mask entry nonzero, or no mask
supplied). -/
def maskBit {B Sq Sk : ℕ} (mask : Option (BMask B Sq Sk))
    (b : Fin B) (i : Fin Sq) (j : Fin Sk) : Bool :=
  match mask with
  | none => true
  | some m => m b i j

/-- All-zero tensor, used as a concrete sample input. -/
def zeroT (B m n : ℕ) : Tens B m n := fun _ _ _ => 0

/-- Concrete sample mask over one query row and two key positions: key `0`
masked out, key `1` kept. -/
def wMask : BMask 1 1 2 := fun _ _ j => j.val == 1

/-! ### Untyped list model

Nested lists carry their shapes as lengths, so shape agreement becomes a
runtime matter, as it is for the tensor library: each shape check a library
operation performs is made explicit as an `Except` failure. -/

/-- A vector as a list of reals. -/
abbrev Vec : Type := List ℝ

/-- A matrix as a list of row vectors. -/
abbrev Mat : Type := List Vec

/-- A batched 3-D tensor as a list of matrices. -/
abbrev Ten : Type := List Mat

/-- A 3-D boolean mask in the list model. -/
abbrev MaskT : Type := List (List (List Bool))

/-- Scores after `masked_fill`: `none` stands for `-inf`. -/
abbrev OTen : Type := List (List (List (Option ℝ)))

/-- The error surfaced when tensor dimensions fail a contract. Modelled from
the spec: the source defines no exception class of its own and surfaces the
shape errors of the tensor library; the spec names them `IncompatibleShapeError`. -/
inductive TensorError where
  | IncompatibleShapeError
deriving DecidableEq

/-- Shape predicate: `A` is an `r × c` matrix. -/
def IsMat {α : Type} (A : List (List α)) (r c : ℕ) : Prop :=
  A.length = r ∧ ∀ row ∈ A, row.length = c

/-- Shape predicate: `T` is a `b × r × c` batched tensor. -/
def IsTen {α : Type} (T : List (List (List α))) (b r c : ℕ) : Prop :=
  T.length = b ∧ ∀ M ∈ T, IsMat M r c

instance {α : Type} (A : List (List α)) (r c : ℕ) : Decidable (IsMat A r c) :=
  inferInstanceAs (Decidable (A.length = r ∧ ∀ row ∈ A, row.length = c))

instance {α : Type} (T : List (List (List α))) (b r c : ℕ) : Decidable (IsTen T b r c) :=
  inferInstanceAs (Decidable (T.length = b ∧ ∀ M ∈ T, IsMat M r c))

/-- Number of rows of a matrix. -/
def matRows (A : Mat) : ℕ := A.length

/-- Number of columns of a matrix, read off its first row (tensors from the
library are rectangular). -/
def matCols (A : Mat) : ℕ := (A.headD []).length

/-- Column `j` of a matrix. -/
def getCol (A : Mat) (j : ℕ) : Vec := A.map (fun r => r.getD j 0)

/-- Dot product of two vectors. -/
def dotV (u w : Vec) : ℝ := (List.zipWith (fun a b => a * b) u w).sum

/-- Single matrix product. -/
def mmul (A Y : Mat) : Mat :=
  A.map (fun r => (List.range (matCols Y)).map (fun j => dotV r (getCol Y j)))

/-- Source `transpose(-2, -1)` on one matrix. -/
def mT (A : Mat) : Mat := (List.range (matCols A)).map (fun j => getCol A j)

/-- Source `transpose(-2, -1)` on a batched tensor. -/
def bT (T : Ten) : Ten := T.map mT

/-- Two batch sizes broadcast together when equal or when either is `1`. -/
def bcompat (a b : ℕ) : Bool := a == b || a == 1 || b == 1

/-- The matrix a broadcast batched op uses at batch index `b`. -/
def bsel (T : Ten) (b : ℕ) : Mat := if T.length = 1 then T.headD [] else T.getD b []

/-- Batched `torch.matmul` on 3-D tensors: fails on non-broadcastable batch
sizes or mismatched inner dimensions, as the library op does. -/
def bmm (A Y : Ten) : Except TensorError Ten :=
  if bcompat A.length Y.length = true ∧ matCols (A.headD []) = matRows (Y.headD [])
  then .ok ((List.range (max A.length Y.length)).map (fun b => mmul (bsel A b) (bsel Y b)))
  else .error .IncompatibleShapeError

/-- Elementwise division of a batched tensor by a scalar. -/
noncomputable def tscale (T : Ten) (c : ℝ) : Ten :=
  T.map (fun M => M.map (fun r => r.map (fun x => x / c)))

/-- Scores entry used at a joint broadcast position `(b, i, j)`: a size-1
scores axis repeats its single slice. -/
def sgetB (S : Ten) (b i j : ℕ) : ℝ :=
  let M := if S.length = 1 then S.headD [] else S.getD b []
  let r := if M.length = 1 then M.headD [] else M.getD i []
  if r.length = 1 then r.headD 0 else r.getD j 0

/-- Mask entry used at a joint broadcast position `(b, i, j)`: a size-1 mask
axis repeats its single slice. -/
def mget (mask : MaskT) (b i j : ℕ) : Bool :=
  let M := if mask.length = 1 then mask.headD [] else mask.getD b []
  let r := if M.length = 1 then M.headD [] else M.getD i []
  if r.length = 1 then r.headD true else r.getD j true

/-- Shape requirement of the out-of-place `masked_fill` the source calls: mask
and scores must be mutually broadcastable — on each axis the two sizes are
equal or one of them is `1` (the library mutually expands both operands). -/
def maskDimsOK (mask : MaskT) (b sq sk : ℕ) : Bool :=
  bcompat mask.length b && bcompat (mask.headD []).length sq &&
    bcompat ((mask.headD []).headD []).length sk

/-- Source `scores.masked_fill(mask == 0, float(-inf))` in the list model:
mask and scores broadcast mutually, the result takes the joint shape, and
entries whose (broadcast) mask entry is `false` become `-inf` (`none`). -/
def maskFillL (mask : MaskT) (S : Ten) : OTen :=
  (List.range (max mask.length S.length)).map (fun b =>
    (List.range (max (mask.headD []).length (S.headD []).length)).map (fun i =>
      (List.range (max ((mask.headD []).headD []).length
          ((S.headD []).headD []).length)).map (fun j =>
        if mget mask b i j = false then none else some (sgetB S b i j))))

/-- Batch-axis size an optional mask contributes to the joint broadcast shape
(`1` when absent: neutral for broadcasting). -/
def mdim0 : Option MaskT → ℕ
  | none => 1
  | some m => m.length

/-- Key-axis size an optional mask contributes to the joint broadcast shape
(`1` when absent: neutral for broadcasting). -/
def mdim2 : Option MaskT → ℕ
  | none => 1
  | some m => ((m.headD []).headD []).length

/-- Spec-worded one-directional reading of the original mask-shape condition:
the mask expands to the target score shape when each mask axis equals the
target axis or is `1`. The library op the source calls in fact broadcasts
mutually; compare `maskDimsOK`. -/
def maskExpandsTo (mask : MaskT) (b sq sk : ℕ) : Bool :=
  (mask.length == b || mask.length == 1) &&
    ((mask.headD []).length == sq || (mask.headD []).length == 1) &&
    (((mask.headD []).headD []).length == sk || ((mask.headD []).headD []).length == 1)

/-- Softmax of one row in the list model. -/
noncomputable def softmaxRowL (r : List (Option ℝ)) : List ℝ :=
  r.map (fun x => expOpt x / (r.map expOpt).sum)

/-- Source `F.softmax(scores, dim=-1)` in the list model. -/
noncomputable def softmaxL (S : OTen) : Ten := S.map (fun M => M.map softmaxRowL)

/-- Last two steps of the source: softmax, then `matmul(attention_weights, v)`. -/
noncomputable def sdpaFinish (v : Ten) (filled : OTen) :
    Except TensorError (Ten × Ten) :=
  match bmm (softmaxL filled) v with
  | .error e => .error e
  | .ok out => .ok (out, softmaxL filled)

/-- The masking step of the source: no mask passes the scores through;
a mask of acceptable shape is applied with `masked_fill`; any other mask
makes the library op fail. -/
noncomputable def sdpaMask (v : Ten) (scores : Ten) (mask : Option MaskT) :
    Except TensorError (Ten × Ten) :=
  match mask with
  | none => sdpaFinish v (scores.map (fun M => M.map (fun r => r.map some)))
  | some m =>
    if maskDimsOK m scores.length (matRows (scores.headD []))
        (matCols (scores.headD [])) = true
    then sdpaFinish v (maskFillL m scores)
    else .error .IncompatibleShapeError

/-- Function `scaled_dot_product_attention` in the list model:
`d_k = q.shape[-1]`, then `matmul(q, k.transpose(-2, -1)) / sqrt(d_k)`,
masking, softmax, and `matmul(attention_weights, v)`. -/
noncomputable def sdpaL (q k v : Ten) (mask : Option MaskT) :
    Except TensorError (Ten × Ten) :=
  match bmm q (bT k) with
  | .error e => .error e
  | .ok raw => sdpaMask v (tscale raw (Real.sqrt (matCols (q.headD [])))) mask

/-- Concrete query tensor of shape `(1, 1, 2)`. -/
def wQ5 : Ten := [[[0, 0]]]

/-- Concrete key tensor of shape `(1, 1, 3)`: key dimension `3 ≠ 2`. -/
def wK5 : Ten := [[[0, 0, 0]]]

/-- Concrete value tensor of shape `(1, 1, 1)`. -/
def wV5 : Ten := [[[0]]]

/-- Concrete query tensor of shape `(1, 1, 1)`. -/
def wQ8 : Ten := [[[0]]]

/-- Concrete key/value tensor of shape `(1, 2, 1)`. -/
def wK8 : Ten := [[[0], [0]]]

/-- Concrete query tensor of shape `(1, 1, 2)` for the mask-broadcast inputs. -/
def cQ : Ten := [[[0, 0]]]

/-- Concrete key tensor of shape `(1, 3, 2)`. -/
def caK : Ten := [[[0, 0], [0, 0], [0, 0]]]

/-- Concrete value tensor of shape `(1, 3, 1)`. -/
def caV : Ten := [[[0], [0], [0]]]

/-- Concrete all-ones mask of shape `(1, 5, 3)`: taller than the `(1, 1, 3)`
score shape it meets, so not one-directionally expandable to it. -/
def caMask : MaskT :=
  [[[true, true, true], [true, true, true], [true, true, true],
    [true, true, true], [true, true, true]]]

/-- Concrete key tensor of shape `(1, 1, 2)`: a single key position. -/
def cbK : Ten := [[[0, 0]]]

/-- Concrete value tensor of shape `(1, 4, 1)`: `seq_len_k = 4`, disagreeing
with the single key position of `cbK`. -/
def cbV : Ten := [[[0], [0], [0], [0]]]

/-- Concrete all-ones mask of shape `(1, 1, 4)`: mutually broadcastable with
the `(1, 1, 1)` score shape, widening its key axis to `4`. -/
def cbMask : MaskT := [[[true, true, true, true]]]

/-! ### Sinusoidal positional embedding -/

/-- Source `torch.arange(0, d_model, 2)`: the even channel indices below `d_model`. -/
def arangeStep2 (d : ℕ) : List ℕ := (List.range d).filter (fun c => c % 2 = 0)

/-- The odd channel indices below `d_model`: the columns of the slice
`pe[:, 1::2]`. -/
def oddCols (d : ℕ) : List ℕ := (List.range d).filter (fun c => c % 2 = 1)

/-- Source line
`div_term = torch.exp(torch.arange(0, d_model, 2).float() * (-math.log(10000.0) / d_model))`. -/
noncomputable def divTerm (d : ℕ) : List ℝ :=
  (arangeStep2 d).map (fun c : ℕ => Real.exp ((c : ℝ) * (-(Real.log 10000) / (d : ℝ))))

/-- The table written by `pe[:, 0::2] = torch.sin(position * div_term)` and
`pe[:, 1::2] = torch.cos(position * div_term)`: column `2i` of row `p` holds
`sin(p * div_term[i])` and column `2i + 1` holds `cos(p * div_term[i])`. -/
noncomputable def peTable (max_seq_len d_model : ℕ) : Mat :=
  (List.range max_seq_len).map (fun p : ℕ =>
    (List.range d_model).map (fun c : ℕ =>
      if c % 2 = 0 then Real.sin ((p : ℝ) * (divTerm d_model).getD (c / 2) 0)
      else Real.cos ((p : ℝ) * (divTerm d_model).getD (c / 2) 0)))

/-- Constructor `SinusoidalPositionalEmbedding.__init__`: the two slice assignments each
require the column count of the assigned value to match that of the slice;
the library aborts the construction otherwise. -/
noncomputable def pe_init (max_seq_len d_model : ℕ) : Except TensorError Mat :=
  if (arangeStep2 d_model).length = (divTerm d_model).length ∧
      (oddCols d_model).length = (divTerm d_model).length
  then .ok (peTable max_seq_len d_model)
  else .error .IncompatibleShapeError

/-- Method `SinusoidalPositionalEmbedding.forward`: `self.pe[:x.shape[1], :].unsqueeze(0)`,
with `seq_len` standing for `x.shape[1]`. -/
noncomputable def pe_forward (pe : Mat) (seq_len : ℕ) : Ten := [pe.take seq_len]

/-- The embedding module with its stored buffer `pe`. Modelled from the spec:
tensors are immutable numeric arrays and the module owns `pe` from
construction on, so a method call is a pure state transformer returning the
result together with the (possibly updated) module state. -/
structure PEModule where
  pe : Mat

/-- Method `forward` as a state transformer on the module. -/
noncomputable def PEModule.forward (s : PEModule) (seq_len : ℕ) : Ten × PEModule :=
  (pe_forward s.pe seq_len, s)

/-- Run a sequence of `forward` queries, threading the module state. -/
noncomputable def runQueries (s : PEModule) : List ℕ → PEModule
  | [] => s
  | n :: rest => runQueries (s.forward n).2 rest

theorem expOpt_some (x : ℝ) : expOpt (some x) = Real.exp x := rfl

theorem expOpt_nonneg (x : Option ℝ) : 0 ≤ expOpt x := by
  cases x with
  | none => simp [expOpt]
  | some y => exact le_of_lt (by simpa [expOpt] using Real.exp_pos y)

/-- C1: with no mask, the attention weights are the softmax along the key axis
of the scaled score matrix `q · kᵀ / sqrt d_k`, and the output is the batched
matrix product of the weights with `v`. -/
theorem sdpa_no_mask_spec {B Sq Sk Dk Dv : ℕ}
    (q : Tens B Sq Dk) (k : Tens B Sk Dk) (v : Tens B Sk Dv) :
    (scaled_dot_product_attention q k v none).2 = specWeights q k ∧
      (scaled_dot_product_attention q k v none).1 = specOutput q k v := by
  constructor
  · funext b i j
    simp [scaled_dot_product_attention, softmaxO, maskedScores, expOpt,
      specWeights, scores3]
  · funext b i t
    simp [scaled_dot_product_attention, softmaxO, maskedScores, expOpt,
      specWeights, specOutput, scores3]

theorem maskedScores_eq_ite {B Sq Sk Dk : ℕ} (q : Tens B Sq Dk) (k : Tens B Sk Dk)
    (mask : Option (BMask B Sq Sk)) (b : Fin B) (i : Fin Sq) (j : Fin Sk) :
    maskedScores q k mask b i j =
      if maskBit mask b i j = true then some (scores3 q k b i j) else none := by
  cases mask with
  | none => simp [maskedScores, maskBit]
  | some m => cases h : m b i j <;> simp [maskedScores, maskBit, h]

/-- C2: with a mask supplied, every weight at a masked `(query, key)` position
is `0` (provided the query row attends over at least one key), and unmasked
positions pass their scaled score to softmax unchanged. -/
theorem sdpa_mask_zero_weight {B Sq Sk Dk Dv : ℕ}
    (q : Tens B Sq Dk) (k : Tens B Sk Dk) (v : Tens B Sk Dv)
    (m : BMask B Sq Sk) (b : Fin B) (i : Fin Sq) (j : Fin Sk)
    (hj : m b i j = false) (hatt : ∃ j', m b i j' = true) :
    (scaled_dot_product_attention q k v (some m)).2 b i j = 0 ∧
      ∀ j', m b i j' = true →
        maskedScores q k (some m) b i j' = some (scores3 q k b i j') := by
  constructor
  · simp [scaled_dot_product_attention, softmaxO, maskedScores, hj, expOpt]
  · intro j' hj'
    simp [maskedScores, hj']

/-- Witness for `sdpa_mask_zero_weight` at a concrete masked input. -/
theorem sdpa_mask_zero_weight_witness :
    (wMask 0 0 0 = false) ∧ (∃ j', wMask 0 0 j' = true) ∧
      ((scaled_dot_product_attention (zeroT 1 1 1) (zeroT 1 2 1) (zeroT 1 2 1)
          (some wMask)).2 0 0 0 = 0 ∧
        ∀ j', wMask 0 0 j' = true →
          maskedScores (zeroT 1 1 1) (zeroT 1 2 1) (some wMask) 0 0 j' =
            some (scores3 (zeroT 1 1 1) (zeroT 1 2 1) 0 0 j')) :=
  ⟨by decide, ⟨1, by decide⟩,
    sdpa_mask_zero_weight (zeroT 1 1 1) (zeroT 1 2 1) (zeroT 1 2 1) wMask 0 0 0
      (by decide) ⟨1, by decide⟩⟩

/-- C4: when no query row is fully masked, every row of the returned weights
sums to `1` and every entry lies in `[0, 1]`. -/
theorem sdpa_row_stochastic {B Sq Sk Dk Dv : ℕ}
    (q : Tens B Sq Dk) (k : Tens B Sk Dk) (v : Tens B Sk Dv)
    (mask : Option (BMask B Sq Sk))
    (hrow : ∀ b i, ∃ j, maskBit mask b i j = true) :
    ∀ b i, (∑ j, (scaled_dot_product_attention q k v mask).2 b i j) = 1 ∧
      ∀ j, 0 ≤ (scaled_dot_product_attention q k v mask).2 b i j ∧
        (scaled_dot_product_attention q k v mask).2 b i j ≤ 1 := by
  intro b i
  obtain ⟨j0, hj0⟩ := hrow b i
  have hterm : 0 < expOpt (maskedScores q k mask b i j0) := by
    rw [maskedScores_eq_ite, hj0]
    simpa [expOpt] using Real.exp_pos (scores3 q k b i j0)
  have hS : 0 < ∑ j', expOpt (maskedScores q k mask b i j') :=
    lt_of_lt_of_le hterm
      (Finset.single_le_sum (fun j _ => expOpt_nonneg _) (Finset.mem_univ j0))
  constructor
  · have : (∑ j, expOpt (maskedScores q k mask b i j) /
        ∑ j', expOpt (maskedScores q k mask b i j')) =
        (∑ j, expOpt (maskedScores q k mask b i j)) /
          ∑ j', expOpt (maskedScores q k mask b i j') :=
      (Finset.sum_div _ _ _).symm
    simpa [scaled_dot_product_attention, softmaxO, this] using div_self (ne_of_gt hS)
  · intro j
    refine ⟨div_nonneg (expOpt_nonneg _) (le_of_lt hS), ?_⟩
    exact div_le_one_of_le
      (Finset.single_le_sum (fun j' _ => expOpt_nonneg _) (Finset.mem_univ j))
      (le_of_lt hS)

/-- Witness for `sdpa_row_stochastic` at a concrete unmasked input. -/
theorem sdpa_row_stochastic_witness :
    (∀ b i : Fin 1, ∃ j : Fin 2, maskBit (none : Option (BMask 1 1 2)) b i j = true) ∧
      ∀ b i : Fin 1,
        (∑ j, (scaled_dot_product_attention (zeroT 1 1 1) (zeroT 1 2 1) (zeroT 1 2 1)
            none).2 b i j) = 1 ∧
          ∀ j, 0 ≤ (scaled_dot_product_attention (zeroT 1 1 1) (zeroT 1 2 1)
              (zeroT 1 2 1) none).2 b i j ∧
            (scaled_dot_product_attention (zeroT 1 1 1) (zeroT 1 2 1) (zeroT 1 2 1)
              none).2 b i j ≤ 1 :=
  ⟨by decide,
    sdpa_row_stochastic (zeroT 1 1 1) (zeroT 1 2 1) (zeroT 1 2 1) none (by decide)⟩

/-! ### Shape lemmas for the list model -/

theorem headD_mem {α : Type} {l : List α} (d : α) (h : l ≠ []) : l.headD d ∈ l := by
  cases l with
  | nil => exact absurd rfl h
  | cons a t => simp [List.headD]

theorem getD_mem {α : Type} {l : List α} {n : ℕ} (d : α) (h : n < l.length) :
    l.getD n d ∈ l := by
  induction l generalizing n with
  | nil => simp at h
  | cons a t ih =>
    cases n with
    | zero => simp
    | succ n =>
      rw [List.getD_cons_succ]
      exact List.mem_cons_of_mem a (ih (by simpa using h))

theorem isTen_headD {α : Type} {T : List (List (List α))} {b r c : ℕ}
    (h : IsTen T b r c) (hb : 0 < b) : IsMat (T.headD []) r c := by
  apply h.2
  apply headD_mem
  intro hnil
  rw [hnil] at h
  simp [← h.1] at hb

theorem matCols_eq {A : Mat} {r c : ℕ} (h : IsMat A r c) (hr : 0 < r) :
    matCols A = c := by
  apply h.2
  apply headD_mem
  intro hnil
  rw [hnil] at h
  simp [← h.1] at hr

theorem bcompat_cases {a b : ℕ} (h : bcompat a b = true) : a = b ∨ a = 1 ∨ b = 1 := by
  simpa [bcompat, Bool.or_eq_true, beq_iff_eq, or_assoc] using h

theorem mmul_isMat {A Y : Mat} {r n c : ℕ} (hA : IsMat A r n) (hY : IsMat Y n c)
    (hn : 0 < n) : IsMat (mmul A Y) r c := by
  constructor
  · simpa [mmul] using hA.1
  · intro row hrow
    rw [mmul] at hrow
    obtain ⟨r0, _, rfl⟩ := List.mem_map.mp hrow
    simpa using matCols_eq hY hn

theorem bsel_isMat {T : Ten} {n r c b : ℕ} (h : IsTen T n r c) (hn : 0 < n)
    (hb : b < n ∨ n = 1) : IsMat (bsel T b) r c := by
  rw [bsel]
  by_cases h1 : T.length = 1
  · rw [if_pos h1]
    exact isTen_headD h hn
  · rw [if_neg h1]
    apply h.2
    apply getD_mem
    rcases hb with hb | hb
    · rw [h.1]; exact hb
    · exact absurd (h.1.trans hb) h1

theorem mT_isMat {A : Mat} {r c : ℕ} (hA : IsMat A r c) (hr : 0 < r) :
    IsMat (mT A) c r := by
  constructor
  · simp [mT, matCols_eq hA hr]
  · intro row hrow
    rw [mT] at hrow
    obtain ⟨j, _, rfl⟩ := List.mem_map.mp hrow
    simp [getCol, hA.1]

theorem bT_isTen {T : Ten} {b r c : ℕ} (h : IsTen T b r c) (hr : 0 < r) :
    IsTen (bT T) b c r := by
  constructor
  · simpa [bT] using h.1
  · intro M hM
    rw [bT] at hM
    obtain ⟨M0, hM0, rfl⟩ := List.mem_map.mp hM
    exact mT_isMat (h.2 M0 hM0) hr

theorem map_map_isTen {α β : Type} {T : List (List (List α))} {b r c : ℕ}
    (h : IsTen T b r c) (f : List α → List β) (hf : ∀ l, (f l).length = l.length) :
    IsTen (T.map (fun M => M.map f)) b r c := by
  refine ⟨by simpa using h.1, ?_⟩
  intro M hM
  obtain ⟨M0, hM0, rfl⟩ := List.mem_map.mp hM
  have h0 := h.2 M0 hM0
  refine ⟨by simpa using h0.1, ?_⟩
  intro row hrow
  obtain ⟨r0, hr0, rfl⟩ := List.mem_map.mp hrow
  rw [hf]
  exact h0.2 r0 hr0

theorem tscale_isTen {T : Ten} {b r c : ℕ} (h : IsTen T b r c) (x : ℝ) :
    IsTen (tscale T x) b r c := by
  unfold tscale
  exact map_map_isTen h _ (fun l => by simp)

theorem isMat_headD_length {α : Type} {A : List (List α)} {r c : ℕ}
    (h : IsMat A r c) (hr : 0 < r) : (A.headD []).length = c := by
  apply h.2
  apply headD_mem
  intro hnil
  rw [hnil] at h
  simp [← h.1] at hr

theorem maskFillL_isTen {m : MaskT} {S : Ten} {b r c : ℕ} (h : IsTen S b r c)
    (hb : 0 < b) (hr : 0 < r) :
    IsTen (maskFillL m S) (max m.length b) (max (m.headD []).length r)
      (max ((m.headD []).headD []).length c) := by
  have h1 : (S.headD []).length = r := (isTen_headD h hb).1
  have h2 : ((S.headD []).headD []).length = c :=
    isMat_headD_length (isTen_headD h hb) hr
  refine ⟨by simp [maskFillL, h.1], ?_⟩
  intro M hM
  rw [maskFillL] at hM
  obtain ⟨bi, _, rfl⟩ := List.mem_map.mp hM
  refine ⟨by rw [List.length_map, List.length_range, h1], ?_⟩
  intro row hrow
  obtain ⟨i, _, rfl⟩ := List.mem_map.mp hrow
  rw [List.length_map, List.length_range, h2]

theorem bmm_error {A Y : Ten}
    (h : ¬(bcompat A.length Y.length = true ∧
      matCols (A.headD []) = matRows (Y.headD []))) :
    bmm A Y = Except.error TensorError.IncompatibleShapeError := by
  rw [bmm, if_neg h]

theorem bmm_ok {A Y : Ten} {B1 B2 r n c : ℕ}
    (hA : IsTen A B1 r n) (hY : IsTen Y B2 n c)
    (hB1 : 0 < B1) (hB2 : 0 < B2) (hr : 0 < r) (hn : 0 < n)
    (hbc : bcompat B1 B2 = true) :
    ∃ R, bmm A Y = Except.ok R ∧ IsTen R (max B1 B2) r c := by
  have hcols : matCols (A.headD []) = n := matCols_eq (isTen_headD hA hB1) hr
  have hrowsY : matRows (Y.headD []) = n := by
    simpa [matRows] using (isTen_headD hY hB2).1
  have hcond : bcompat A.length Y.length = true ∧
      matCols (A.headD []) = matRows (Y.headD []) := by
    rw [hA.1, hY.1, hcols, hrowsY]
    exact ⟨hbc, rfl⟩
  have hbmm : bmm A Y = Except.ok ((List.range (max A.length Y.length)).map
      (fun b => mmul (bsel A b) (bsel Y b))) := by
    rw [bmm, if_pos hcond]
  refine ⟨_, hbmm, ?_, ?_⟩
  · simp [hA.1, hY.1]
  · intro M hM
    obtain ⟨b, hb, rfl⟩ := List.mem_map.mp hM
    rw [List.mem_range, hA.1, hY.1] at hb
    have hcases := bcompat_cases hbc
    have hbA : b < B1 ∨ B1 = 1 := by rcases hcases with h | h | h <;> omega
    have hbY : b < B2 ∨ B2 = 1 := by rcases hcases with h | h | h <;> omega
    exact mmul_isMat (bsel_isMat hA hB1 hbA) (bsel_isMat hY hB2 hbY) hn

theorem softmaxL_isTen {S : OTen} {b r c : ℕ} (h : IsTen S b r c) :
    IsTen (softmaxL S) b r c := by
  unfold softmaxL
  exact map_map_isTen h _ (fun l => by simp [softmaxRowL])

theorem sdpaL_ok_step {q k : Ten} (v : Ten) (mask : Option MaskT) {raw : Ten}
    (hraw : bmm q (bT k) = Except.ok raw) :
    sdpaL q k v mask =
      sdpaMask v (tscale raw (Real.sqrt (matCols (q.headD [])))) mask := by
  unfold sdpaL
  rw [hraw]

theorem sdpaL_err_step {q k : Ten} (v : Ten) (mask : Option MaskT) {e : TensorError}
    (herr : bmm q (bT k) = Except.error e) :
    sdpaL q k v mask = Except.error e := by
  unfold sdpaL
  rw [herr]

theorem sdpaMask_none (v scores : Ten) :
    sdpaMask v scores none =
      sdpaFinish v (scores.map (fun M => M.map (fun r => r.map some))) := rfl

theorem sdpaMask_some (v scores : Ten) (m : MaskT) :
    sdpaMask v scores (some m) =
      if maskDimsOK m scores.length (matRows (scores.headD []))
          (matCols (scores.headD [])) = true
      then sdpaFinish v (maskFillL m scores)
      else Except.error TensorError.IncompatibleShapeError := rfl

theorem sdpaFinish_ok {v : Ten} {filled : OTen} {out : Ten}
    (hout : bmm (softmaxL filled) v = Except.ok out) :
    sdpaFinish v filled = Except.ok (out, softmaxL filled) := by
  unfold sdpaFinish
  rw [hout]

theorem sdpaFinish_err {v : Ten} {filled : OTen} {e : TensorError}
    (h : bmm (softmaxL filled) v = Except.error e) :
    sdpaFinish v filled = Except.error e := by
  unfold sdpaFinish
  rw [h]

/-- C8: for `q : (B, Sq, Dk)`, `k : (B, Sk, Dk)`, `v : (B, Sk, Dv)` (with
positive dimensions), `scaled_dot_product_attention` succeeds and returns an
output of shape `(B, Sq, Dv)` and weights of shape `(B, Sq, Sk)`. -/
theorem sdpa_shapes {B Sq Sk Dk Dv : ℕ} {q k v : Ten}
    (hq : IsTen q B Sq Dk) (hk : IsTen k B Sk Dk) (hv : IsTen v B Sk Dv)
    (hB : 0 < B) (hSq : 0 < Sq) (hSk : 0 < Sk) (hDk : 0 < Dk) :
    ∃ out w, sdpaL q k v none = Except.ok (out, w) ∧
      IsTen out B Sq Dv ∧ IsTen w B Sq Sk := by
  have hkT : IsTen (bT k) B Dk Sk := bT_isTen hk hSk
  have hbc : bcompat B B = true := by simp [bcompat]
  obtain ⟨raw, hraw, hrawT⟩ := bmm_ok hq hkT hB hB hSq hDk hbc
  rw [max_self] at hrawT
  have hscores : IsTen (tscale raw (Real.sqrt (matCols (q.headD [])))) B Sq Sk :=
    tscale_isTen hrawT _
  have hfill : IsTen ((tscale raw (Real.sqrt (matCols (q.headD [])))).map
      (fun M => M.map (fun r => r.map some))) B Sq Sk :=
    map_map_isTen hscores _ (fun l => by simp)
  have hw := softmaxL_isTen hfill
  obtain ⟨out, hout, houtT⟩ := bmm_ok hw hv hB hB hSq hSk hbc
  rw [max_self] at houtT
  refine ⟨out, _, ?_, houtT, hw⟩
  rw [sdpaL_ok_step v none hraw, sdpaMask_none, sdpaFinish_ok hout]

/-- Witness for `sdpa_shapes` at concrete tensors of shape
`(1, 1, 1)`, `(1, 2, 1)`, `(1, 2, 1)`. -/
theorem sdpa_shapes_witness :
    (IsTen wQ8 1 1 1 ∧ IsTen wK8 1 2 1 ∧ IsTen wK8 1 2 1) ∧
      ∃ out w, sdpaL wQ8 wK8 wK8 none = Except.ok (out, w) ∧
        IsTen out 1 1 1 ∧ IsTen w 1 1 2 :=
  ⟨⟨by decide, by decide, by decide⟩,
    @sdpa_shapes 1 1 2 1 1 wQ8 wK8 wK8 (by decide) (by decide) (by decide)
      (by decide) (by decide) (by decide) (by decide)⟩

theorem sdpaFinish_error {v : Ten} {filled : OTen} {Bw B3 Sq Sk2 Sk3 Dv : ℕ}
    (hfill : IsTen filled Bw Sq Sk2) (hv : IsTen v B3 Sk3 Dv)
    (hBw : 0 < Bw) (hB3 : 0 < B3) (hSq : 0 < Sq)
    (hbad : Sk2 ≠ Sk3 ∨ ¬bcompat Bw B3 = true) :
    sdpaFinish v filled = Except.error TensorError.IncompatibleShapeError := by
  have hw := softmaxL_isTen hfill
  apply sdpaFinish_err
  apply bmm_error
  rintro ⟨hbc, hcols⟩
  rw [hw.1, hv.1] at hbc
  rw [matCols_eq (isTen_headD hw hBw) hSq] at hcols
  have hvr : matRows (v.headD []) = Sk3 := by
    simpa [matRows] using (isTen_headD hv hB3).1
  rw [hvr] at hcols
  tauto

/-- C5 (amended): `scaled_dot_product_attention` fails with the shape error
and produces no output whenever `d_k` differs between `q` and `k`, or the
batch sizes (after the joint mask broadcast, whose batch contribution
`mdim0` is `1` when no mask is supplied) are not broadcast-compatible, or
the key axis of the scores after the joint mask broadcast (`mdim2` is `1`
when no mask is supplied, so this is `seq_len_k` of `k` then) differs from
`seq_len_k` of `v`, or a supplied mask is not mutually broadcastable with
the score shape. -/
theorem sdpa_mismatch_fails {B1 B2 B3 Sq Sk2 Sk3 Dk1 Dk2 Dv : ℕ}
    {q k v : Ten} {mask : Option MaskT}
    (hq : IsTen q B1 Sq Dk1) (hk : IsTen k B2 Sk2 Dk2) (hv : IsTen v B3 Sk3 Dv)
    (hB1 : 0 < B1) (hB2 : 0 < B2) (hB3 : 0 < B3) (hSq : 0 < Sq)
    (hSk2 : 0 < Sk2) (hSk3 : 0 < Sk3) (hDk1 : 0 < Dk1) (hDk2 : 0 < Dk2)
    (hbad : Dk1 ≠ Dk2 ∨ max (mdim2 mask) Sk2 ≠ Sk3 ∨
      ¬(bcompat B1 B2 = true ∧
        bcompat (max (mdim0 mask) (max B1 B2)) B3 = true) ∨
      ∃ m, mask = some m ∧ maskDimsOK m (max B1 B2) Sq Sk2 = false) :
    sdpaL q k v mask = Except.error TensorError.IncompatibleShapeError := by
  have hkT : IsTen (bT k) B2 Dk2 Sk2 := bT_isTen hk hSk2
  by_cases hc1 : bcompat B1 B2 = true ∧ Dk1 = Dk2
  case neg =>
    apply sdpaL_err_step
    apply bmm_error
    rintro ⟨hbc, hcols⟩
    rw [hq.1, hkT.1] at hbc
    rw [matCols_eq (isTen_headD hq hB1) hSq] at hcols
    have hkr : matRows ((bT k).headD []) = Dk2 := by
      simpa [matRows] using (isTen_headD hkT hB2).1
    rw [hkr] at hcols
    exact hc1 ⟨hbc, hcols⟩
  case pos =>
    obtain ⟨hbc12, hdk⟩ := hc1
    subst hdk
    obtain ⟨raw, hraw, hrawT⟩ := bmm_ok hq hkT hB1 hB2 hSq hDk1 hbc12
    rw [sdpaL_ok_step v mask hraw]
    have hBmpos : 0 < max B1 B2 := lt_of_lt_of_le hB1 (le_max_left _ _)
    have hsc : IsTen (tscale raw (Real.sqrt (matCols (q.headD []))))
        (max B1 B2) Sq Sk2 := tscale_isTen hrawT _
    have hslen : (tscale raw (Real.sqrt (matCols (q.headD [])))).length =
        max B1 B2 := hsc.1
    have hsrows : matRows ((tscale raw
        (Real.sqrt (matCols (q.headD [])))).headD []) = Sq := by
      simpa [matRows] using (isTen_headD hsc hBmpos).1
    have hscols : matCols ((tscale raw
        (Real.sqrt (matCols (q.headD [])))).headD []) = Sk2 :=
      matCols_eq (isTen_headD hsc hBmpos) hSq
    cases mask with
    | none =>
      rw [sdpaMask_none]
      have hfill := map_map_isTen hsc (fun r => r.map some) (fun l => by simp)
      apply sdpaFinish_error hfill hv hBmpos hB3 hSq
      rcases hbad with h | h | h | h
      · exact absurd rfl h
      · refine Or.inl ?_
        have hmx : max (mdim2 (none : Option MaskT)) Sk2 = Sk2 := by
          simp only [mdim2]
          omega
        rw [hmx] at h
        exact h
      · refine Or.inr ?_
        intro hc
        apply h
        refine ⟨hbc12, ?_⟩
        have hmx : max (mdim0 (none : Option MaskT)) (max B1 B2) = max B1 B2 := by
          simp only [mdim0]
          omega
        rw [hmx]
        exact hc
      · obtain ⟨m, hm, _⟩ := h
        simp at hm
    | some m =>
      rw [sdpaMask_some, hslen, hsrows, hscols]
      by_cases hdims : maskDimsOK m (max B1 B2) Sq Sk2 = true
      · rw [if_pos hdims]
        have hfill := @maskFillL_isTen m _ _ _ _ hsc hBmpos hSq
        apply sdpaFinish_error hfill hv
          (lt_of_lt_of_le hBmpos (le_max_right _ _)) hB3
          (lt_of_lt_of_le hSq (le_max_right _ _))
        rcases hbad with h | h | h | h
        · exact absurd rfl h
        · exact Or.inl (by simpa only [mdim2] using h)
        · refine Or.inr ?_
          intro hc
          exact h ⟨hbc12, by simpa only [mdim0] using hc⟩
        · obtain ⟨m2, hm2, hbadm⟩ := h
          cases Option.some.inj hm2
          exact absurd hbadm (by simp [hdims])
      · rw [if_neg hdims]

/-- Witness for `sdpa_mismatch_fails` at concrete tensors whose key
dimensions disagree (`2` for `q`, `3` for `k`). -/
theorem sdpa_mismatch_fails_witness :
    (IsTen wQ5 1 1 2 ∧ IsTen wK5 1 1 3 ∧ IsTen wV5 1 1 1 ∧ (2 : ℕ) ≠ 3) ∧
      sdpaL wQ5 wK5 wV5 none = Except.error TensorError.IncompatibleShapeError :=
  ⟨⟨by decide, by decide, by decide, by decide⟩,
    @sdpa_mismatch_fails 1 1 1 1 1 1 2 3 1 wQ5 wK5 wV5 none
      (by decide) (by decide) (by decide) (by decide) (by decide) (by decide)
      (by decide) (by decide) (by decide) (by decide) (by decide)
      (Or.inl (by decide))⟩

/-! ### Positional embedding lemmas -/

theorem arangeStep2_succ (d : ℕ) :
    arangeStep2 (d + 1) = arangeStep2 d ++ if d % 2 = 0 then [d] else [] := by
  unfold arangeStep2
  rw [List.range_succ, List.filter_append]
  congr 1
  by_cases h : d % 2 = 0 <;> simp [h]

theorem arangeStep2_eq (d : ℕ) :
    arangeStep2 d = (List.range ((d + 1) / 2)).map (fun i => 2 * i) := by
  induction d with
  | zero => rfl
  | succ d ih =>
    rw [arangeStep2_succ, ih]
    by_cases h : d % 2 = 0
    · rw [if_pos h]
      have h1 : (d + 1 + 1) / 2 = (d + 1) / 2 + 1 := by omega
      rw [h1, List.range_succ, List.map_append]
      have h2 : 2 * ((d + 1) / 2) = d := by omega
      simp [h2]
    · rw [if_neg h]
      have h1 : (d + 1 + 1) / 2 = (d + 1) / 2 := by omega
      rw [h1, List.append_nil]

theorem oddCols_length (d : ℕ) : (oddCols d).length = d / 2 := by
  induction d with
  | zero => rfl
  | succ d ih =>
    have hstep : oddCols (d + 1) = oddCols d ++ if d % 2 = 1 then [d] else [] := by
      unfold oddCols
      rw [List.range_succ, List.filter_append]
      congr 1
      by_cases h : d % 2 = 1 <;> simp [h]
    rw [hstep, List.length_append, ih]
    by_cases h : d % 2 = 1 <;> simp [h] <;> omega

theorem divTerm_length (d : ℕ) : (divTerm d).length = (d + 1) / 2 := by
  unfold divTerm
  rw [List.length_map, arangeStep2_eq, List.length_map, List.length_range]

theorem divTerm_getD {d i : ℕ} (h : i < (d + 1) / 2) :
    (divTerm d).getD i 0 = Real.exp (-(Real.log 10000) * (2 * (i : ℝ)) / d) := by
  unfold divTerm
  rw [arangeStep2_eq, List.map_map, List.getD_eq_getElem?_getD, List.getElem?_map,
    List.getElem?_range h]
  simp only [Function.comp, Option.map_some', Option.getD_some]
  congr 1
  push_cast
  ring

theorem peTable_isMat (m d : ℕ) : IsMat (peTable m d) m d := by
  constructor
  · simp [peTable]
  · intro row hrow
    unfold peTable at hrow
    obtain ⟨p, _, rfl⟩ := List.mem_map.mp hrow
    simp

theorem peTable_entry {m d p c : ℕ} (hp : p < m) (hc : c < d) :
    ((peTable m d).getD p []).getD c 0 =
      if c % 2 = 0 then Real.sin ((p : ℝ) * (divTerm d).getD (c / 2) 0)
      else Real.cos ((p : ℝ) * (divTerm d).getD (c / 2) 0) := by
  simp only [peTable, List.getD_eq_getElem?_getD, List.getElem?_map,
    List.getElem?_range hp, List.getElem?_range hc, Option.map_some', Option.getD_some]

/-- C3: construction with positive `max_seq_len` and positive even `d_model`
stores the table `pe` of shape `(max_seq_len, d_model)` with
`pe[p, 2i] = sin(p * ω_i)` and `pe[p, 2i+1] = cos(p * ω_i)` for
`ω_i = exp(-ln(10000) * 2i / d_model)`; row `0` has even channels `0` and odd
channels `1`, and `pe[p, 0] = sin(p)` for every `p`. -/
theorem pe_table_invariant (m d : ℕ) (hm : 0 < m) (hd2 : d % 2 = 0) (hd : 0 < d) :
    pe_init m d = Except.ok (peTable m d) ∧
      (peTable m d).length = m ∧ (∀ row ∈ peTable m d, row.length = d) ∧
      (∀ p < m, ∀ i < d / 2,
        ((peTable m d).getD p []).getD (2 * i) 0 =
          Real.sin ((p : ℝ) * Real.exp (-(Real.log 10000) * (2 * (i : ℝ)) / d)) ∧
        ((peTable m d).getD p []).getD (2 * i + 1) 0 =
          Real.cos ((p : ℝ) * Real.exp (-(Real.log 10000) * (2 * (i : ℝ)) / d))) ∧
      (∀ i < d / 2,
        ((peTable m d).getD 0 []).getD (2 * i) 0 = 0 ∧
        ((peTable m d).getD 0 []).getD (2 * i + 1) 0 = 1) ∧
      (∀ p < m, ((peTable m d).getD p []).getD 0 0 = Real.sin (p : ℝ)) := by
  have hinit : pe_init m d = Except.ok (peTable m d) := by
    unfold pe_init
    rw [if_pos]
    constructor
    · unfold divTerm
      rw [List.length_map]
    · rw [oddCols_length, divTerm_length]
      omega
  have hmain : ∀ p < m, ∀ i < d / 2,
      ((peTable m d).getD p []).getD (2 * i) 0 =
        Real.sin ((p : ℝ) * Real.exp (-(Real.log 10000) * (2 * (i : ℝ)) / d)) ∧
      ((peTable m d).getD p []).getD (2 * i + 1) 0 =
        Real.cos ((p : ℝ) * Real.exp (-(Real.log 10000) * (2 * (i : ℝ)) / d)) := by
    intro p hp i hi
    have h2i : 2 * i < d := by omega
    have h2i1 : 2 * i + 1 < d := by omega
    have hfreq : i < (d + 1) / 2 := by omega
    constructor
    · rw [peTable_entry hp h2i, if_pos (by omega : (2 * i) % 2 = 0),
        (by omega : (2 * i) / 2 = i), divTerm_getD hfreq]
    · rw [peTable_entry hp h2i1, if_neg (by omega : ¬(2 * i + 1) % 2 = 0),
        (by omega : (2 * i + 1) / 2 = i), divTerm_getD hfreq]
  refine ⟨hinit, (peTable_isMat m d).1, (peTable_isMat m d).2, hmain, ?_, ?_⟩
  · intro i hi
    obtain ⟨h1, h2⟩ := hmain 0 hm i hi
    rw [h1, h2]
    norm_num
  · intro p hp
    have h1 := (hmain p hp 0 (by omega)).1
    simpa using h1

/-- Witness for `pe_table_invariant` at `max_seq_len = 2`, `d_model = 8`. -/
theorem pe_table_invariant_witness :
    (0 < 2 ∧ 8 % 2 = 0 ∧ 0 < 8) ∧
      (pe_init 2 8 = Except.ok (peTable 2 8) ∧
        (peTable 2 8).length = 2 ∧ (∀ row ∈ peTable 2 8, row.length = 8) ∧
        (∀ p < 2, ∀ i < 8 / 2,
          ((peTable 2 8).getD p []).getD (2 * i) 0 =
            Real.sin ((p : ℝ) * Real.exp (-(Real.log 10000) * (2 * (i : ℝ)) / 8)) ∧
          ((peTable 2 8).getD p []).getD (2 * i + 1) 0 =
            Real.cos ((p : ℝ) * Real.exp (-(Real.log 10000) * (2 * (i : ℝ)) / 8))) ∧
        (∀ i < 8 / 2,
          ((peTable 2 8).getD 0 []).getD (2 * i) 0 = 0 ∧
          ((peTable 2 8).getD 0 []).getD (2 * i + 1) 0 = 1) ∧
        (∀ p < 2, ((peTable 2 8).getD p []).getD 0 0 = Real.sin (p : ℝ))) :=
  ⟨⟨by decide, by decide, by decide⟩,
    pe_table_invariant 2 8 (by decide) (by decide) (by decide)⟩

/-- C6 (documents the code bug): `forward` performs no range check — asked for
`101` positions from a table built with `max_seq_len = 100`, it silently
returns the whole 100-row table (shape `(1, 100, 64)` instead of raising an
out-of-range error or returning 101 rows). -/
theorem pe_forward_out_of_range :
    (pe_forward (peTable 100 64) 101).length = 1 ∧
      ((pe_forward (peTable 100 64) 101).headD []).length = 100 := by
  refine ⟨rfl, ?_⟩
  unfold pe_forward
  rw [List.headD_cons, List.length_take, (peTable_isMat 100 64).1]
  omega

/-- C7: for `sequence_length ≤ max_seq_len`, `forward` returns exactly the
first `sequence_length` rows of `pe` behind a new leading axis of size 1:
shape `(1, sequence_length, d_model)`. -/
theorem pe_forward_in_range (m d n : ℕ) (hn : n ≤ m) :
    pe_forward (peTable m d) n = [(peTable m d).take n] ∧
      (pe_forward (peTable m d) n).length = 1 ∧
      ((pe_forward (peTable m d) n).headD []).length = n ∧
      ∀ row ∈ (pe_forward (peTable m d) n).headD [], row.length = d := by
  refine ⟨rfl, rfl, ?_, ?_⟩
  · unfold pe_forward
    rw [List.headD_cons, List.length_take, (peTable_isMat m d).1]
    omega
  · intro row hrow
    exact (peTable_isMat m d).2 row (List.mem_of_mem_take hrow)

/-- Witness for `pe_forward_in_range` at `max_seq_len = 100`, `d_model = 64`,
query length `50`. -/
theorem pe_forward_in_range_witness :
    50 ≤ 100 ∧
      (pe_forward (peTable 100 64) 50 = [(peTable 100 64).take 50] ∧
        (pe_forward (peTable 100 64) 50).length = 1 ∧
        ((pe_forward (peTable 100 64) 50).headD []).length = 50 ∧
        ∀ row ∈ (pe_forward (peTable 100 64) 50).headD [], row.length = 64) :=
  ⟨by decide, pe_forward_in_range 100 64 50 (by decide)⟩

/-- C9: `forward` never changes the module state, so `pe` stays the table
written at construction: after any sequence of queries the state is the
initial one and every later query returns the same value as a fresh one. -/
theorem pe_module_frame (s : PEModule) (l : List ℕ) (n : ℕ) :
    runQueries s l = s ∧ (s.forward n).2 = s ∧
      ((runQueries s l).forward n).1 = (s.forward n).1 := by
  have hrun : ∀ l2 : List ℕ, runQueries s l2 = s := by
    intro l2
    induction l2 with
    | nil => rfl
    | cons a t ih => simpa [runQueries, PEModule.forward] using ih
  exact ⟨hrun l, rfl, by rw [hrun l]⟩

/-- C10: with odd `d_model` the frequency vector has `(d_model + 1) / 2`
entries while the odd-column slice `pe[:, 1::2]` has only `d_model / 2`
columns, so the cosine assignment is a shape mismatch and construction
aborts with an error instead of storing a truncated table. -/
theorem pe_init_odd_fails (m d : ℕ) (hd : d % 2 = 1) :
    (divTerm d).length = (d + 1) / 2 ∧ (oddCols d).length = d / 2 ∧
      d / 2 < (d + 1) / 2 ∧
      pe_init m d = Except.error TensorError.IncompatibleShapeError := by
  refine ⟨divTerm_length d, oddCols_length d, by omega, ?_⟩
  unfold pe_init
  rw [if_neg]
  rintro ⟨h1, h2⟩
  rw [oddCols_length, divTerm_length] at h2
  omega

/-- Witness for `pe_init_odd_fails` at `max_seq_len = 5`, `d_model = 7`. -/
theorem pe_init_odd_fails_witness :
    7 % 2 = 1 ∧
      ((divTerm 7).length = (7 + 1) / 2 ∧ (oddCols 7).length = 7 / 2 ∧
        7 / 2 < (7 + 1) / 2 ∧
        pe_init 5 7 = Except.error TensorError.IncompatibleShapeError) :=
  ⟨by decide, pe_init_odd_fails 5 7 (by decide)⟩

theorem sdpaL_mask_ok {B Sq Sk Dk B3 Sk3 Dv : ℕ} {q k v : Ten} {m : MaskT}
    (hq : IsTen q B Sq Dk) (hk : IsTen k B Sk Dk) (hv : IsTen v B3 Sk3 Dv)
    (hB : 0 < B) (hSq : 0 < Sq) (hSk : 0 < Sk) (hDk : 0 < Dk)
    (hB3 : 0 < B3) (hSk3 : 0 < Sk3)
    (hdims : maskDimsOK m B Sq Sk = true)
    (hkey : max ((m.headD []).headD []).length Sk = Sk3)
    (hbatch : bcompat (max m.length B) B3 = true) :
    ∃ out w, sdpaL q k v (some m) = Except.ok (out, w) ∧
      IsTen out (max (max m.length B) B3) (max (m.headD []).length Sq) Dv ∧
      IsTen w (max m.length B) (max (m.headD []).length Sq) Sk3 := by
  have hkT : IsTen (bT k) B Dk Sk := bT_isTen hk hSk
  have hbc : bcompat B B = true := by simp [bcompat]
  obtain ⟨raw, hraw, hrawT⟩ := bmm_ok hq hkT hB hB hSq hDk hbc
  rw [max_self] at hrawT
  have hsc : IsTen (tscale raw (Real.sqrt (matCols (q.headD [])))) B Sq Sk :=
    tscale_isTen hrawT _
  have hslen : (tscale raw (Real.sqrt (matCols (q.headD [])))).length = B := hsc.1
  have hsrows : matRows ((tscale raw
      (Real.sqrt (matCols (q.headD [])))).headD []) = Sq := by
    simpa [matRows] using (isTen_headD hsc hB).1
  have hscols : matCols ((tscale raw
      (Real.sqrt (matCols (q.headD [])))).headD []) = Sk :=
    matCols_eq (isTen_headD hsc hB) hSq
  have hfill := @maskFillL_isTen m _ _ _ _ hsc hB hSq
  rw [hkey] at hfill
  have hw := softmaxL_isTen hfill
  have hBw : 0 < max m.length B := lt_of_lt_of_le hB (le_max_right _ _)
  have hSqw : 0 < max (m.headD []).length Sq := lt_of_lt_of_le hSq (le_max_right _ _)
  obtain ⟨out, hout, houtT⟩ := bmm_ok hw hv hBw hB3 hSqw hSk3 hbatch
  refine ⟨out, _, ?_, houtT, hw⟩
  rw [sdpaL_ok_step v (some m) hraw, sdpaMask_some, hslen, hsrows, hscols,
    if_pos hdims, sdpaFinish_ok hout]

/-- C5 counterexample: the claim as stated fails on the code. Left half: an
all-ones mask of shape `(1, 5, 3)` is not broadcastable TO the score shape
`(1, 1, 3)`, yet the call succeeds — with output `(1, 5, 1)` and weights
`(1, 5, 3)` — because the out-of-place `masked_fill` broadcasts mask and
scores mutually and enlarges the scores. Right half: `k` and `v` disagree on
`seq_len_k` (`1` vs `4`), yet with a mutually broadcastable mask of shape
`(1, 1, 4)` the call succeeds as well. -/
theorem sdpa_mismatch_counterexample :
    (maskExpandsTo caMask 1 1 3 = false ∧
      sdpaL cQ caK caV (some caMask) ≠
        Except.error TensorError.IncompatibleShapeError ∧
      ∃ out w, sdpaL cQ caK caV (some caMask) = Except.ok (out, w) ∧
        IsTen out 1 5 1 ∧ IsTen w 1 5 3) ∧
    ((1 : ℕ) ≠ 4 ∧ maskDimsOK cbMask 1 1 1 = true ∧
      sdpaL cQ cbK cbV (some cbMask) ≠
        Except.error TensorError.IncompatibleShapeError ∧
      ∃ out w, sdpaL cQ cbK cbV (some cbMask) = Except.ok (out, w) ∧
        IsTen out 1 1 1 ∧ IsTen w 1 1 4) := by
  have ha := @sdpaL_mask_ok 1 1 3 2 1 3 1 cQ caK caV caMask
    (by decide) (by decide) (by decide) (by decide) (by decide) (by decide)
    (by decide) (by decide) (by decide) (by decide) (by decide) (by decide)
  have hb := @sdpaL_mask_ok 1 1 1 2 1 4 1 cQ cbK cbV cbMask
    (by decide) (by decide) (by decide) (by decide) (by decide) (by decide)
    (by decide) (by decide) (by decide) (by decide) (by decide) (by decide)
  obtain ⟨outA, wA, hokA, houtA, hwA⟩ := ha
  obtain ⟨outB, wB, hokB, houtB, hwB⟩ := hb
  constructor
  · refine ⟨by decide, ?_, outA, wA, hokA, houtA, hwA⟩
    rw [hokA]
    simp
  · refine ⟨by decide, by decide, ?_, outB, wB, hokB, houtB, hwB⟩
    rw [hokB]
    simp
